import Mathlib

/-!
Shallow embedding of the easyform backend core logic: the form validation
engine (FormValidationService), the submission guard and orchestration
(FormsService), and the draft lifecycle (DraftsService).

Dynamic JavaScript values are modelled by the JsonValue inductive; JS
objects are ordered association lists of string keys (insertion order, keys
unique as in a JS object); timestamps are milliseconds since the epoch as
naturals; the document store is a list of records, so every service
function is a pure function from store state to store state.
-/

/-- Dynamic JS value. An object is an ordered key-value list; an array is a
separate constructor because sanitizeInput treats arrays as generic objects
(Object.entries over an array yields stringified-index keys). -/
inductive JsonValue where
  | str (s : String)
  | num (n : Int)
  | bool (b : Bool)
  | null
  | undefined
  | obj (fields : List (String × JsonValue))
  | arr (items : List JsonValue)
  deriving Repr

/-- The emptiness test used throughout the source: answer === undefined or
answer === null or answer === the empty string. -/
def isEmptyAnswer : JsonValue → Bool
  | .undefined => true
  | .null => true
  | .str s => s == ""
  | _ => false

/-- Whitespace class used by the JS trim and by the \s regex class, on the
code points the repository actually handles. -/
def isJsWhitespace (c : Char) : Bool :=
  c = ' ' || c = '\t' || c = '\n' || c = '\r' || c = '\x0b' || c = '\x0c'

/-- JS String.prototype.trim: drop leading and trailing whitespace. -/
def trimChars (l : List Char) : List Char :=
  ((l.dropWhile isJsWhitespace).reverse.dropWhile isJsWhitespace).reverse

/-- The replace(/[<>]/g, ...) step: delete every angle-bracket character. -/
def stripAngles (l : List Char) : List Char :=
  l.filter (fun c => !(c = '<' || c = '>'))

/-- sanitizeInput on a string: input.trim().replace(/[<>]/g, ...). -/
def sanitizeString (s : String) : String :=
  ⟨stripAngles (trimChars s.data)⟩

mutual
/-- FormValidationService.sanitizeInput: strings are trimmed and stripped of
angle brackets; objects (arrays included, since typeof array = object) are
rebuilt as plain objects with each value sanitized; everything else passes
through unchanged. -/
def sanitizeInput : JsonValue → JsonValue
  | .str s => .str (sanitizeString s)
  | .obj fields => .obj (sanitizeFields fields)
  | .arr items => .obj (sanitizeEntriesFrom 0 items)
  | .num n => .num n
  | .bool b => .bool b
  | .null => .null
  | .undefined => .undefined

/-- Object.entries walk of sanitizeInput over the fields of an object. -/
def sanitizeFields : List (String × JsonValue) → List (String × JsonValue)
  | [] => []
  | (k, v) :: rest => (k, sanitizeInput v) :: sanitizeFields rest

/-- Object.entries walk of sanitizeInput over an array: keys are the decimal
renderings of the indices, starting at i. -/
def sanitizeEntriesFrom (i : Nat) : List JsonValue → List (String × JsonValue)
  | [] => []
  | v :: rest => (toString i, sanitizeInput v) :: sanitizeEntriesFrom (i + 1) rest
end

/-- A question of the dynamic questionnaire, with the fields the validator
reads. Absent options are the empty list, as both absent and empty option
lists are rejected identically for multiple-choice questions. -/
structure Question where
  id : String
  qtype : String
  title : String
  required : Bool
  options : List String
  deriving Repr, DecidableEq

/-- Object.values(QuestionType). -/
def questionTypeValues : List String := ["text", "email", "multiple-choice"]

/-- The apostrophe used by the template literals of the error messages. -/
def quoteCh : Char := Char.ofNat 39

/-- Wrap a title in apostrophes the way the template literals do. -/
def quoted (s : String) : String := ⟨quoteCh :: (s.data ++ [quoteCh])⟩

def msgMustBeAnswered (t : String) : String :=
  "Required question " ++ quoted t ++ " must be answered"

def msgMissing (t : String) : String :=
  "Required question " ++ quoted t ++ " is missing"

def msgMustBeString (t : String) : String :=
  "Answer for " ++ quoted t ++ " must be a string"

def msgTooLong (t : String) : String :=
  "Answer for " ++ quoted t ++ " is too long"

def msgValidEmail (t : String) : String :=
  "Answer for " ++ quoted t ++ " must be a valid email"

def msgOneOfOptions (t : String) : String :=
  "Answer for " ++ quoted t ++ " must be one of the provided options"

def msgUnknownAnswer (qid : String) : String :=
  "Answer provided for unknown question: " ++ qid

/-- Split a character list at every occurrence of c (String.split semantics:
n separators yield n+1 pieces, empty pieces kept). -/
def splitOnChar (c : Char) : List Char → List (List Char)
  | [] => [[]]
  | a :: rest =>
    let r := splitOnChar c rest
    if a = c then [] :: r
    else (a :: r.headD []) :: r.tail

/-- EMAIL_REGEX test: one at-sign, a nonempty whitespace-free local part, and
a nonempty whitespace-free domain containing a dot that has at least one
character on each side. -/
def emailRegexTest (s : String) : Bool :=
  match splitOnChar '@' s.data with
  | [loc, dom] =>
    !loc.isEmpty && loc.all (fun ch => !isJsWhitespace ch) &&
    !dom.isEmpty && dom.all (fun ch => !isJsWhitespace ch) &&
    (dom.drop 1).dropLast.contains '.'
  | _ => false

/-- The per-question loop of FormValidationService.validateQuestions, with
the set of already-seen ids as the accumulator. -/
def validateQuestionsGo : List Question → List String → Except String Unit
  | [], _ => .ok ()
  | q :: rest, seen =>
    if q.id = "" then .error "Each question must have a valid id"
    else if q.id ∈ seen then .error ("Duplicate question id: " ++ q.id)
    else if q.qtype ∉ questionTypeValues then .error ("Invalid question type: " ++ q.qtype)
    else if q.title = "" then .error "Each question must have a title"
    else if q.qtype = "multiple-choice" ∧ q.options = [] then
      .error "Multiple choice questions must have options"
    else validateQuestionsGo rest (q.id :: seen)

/-- FormValidationService.validateQuestions. -/
def validateQuestions (questions : List Question) : Except String Unit :=
  if questions.length = 0 then .error "At least one question is required"
  else if 50 < questions.length then .error "Maximum 50 questions allowed"
  else validateQuestionsGo questions []

/-- new Map(questions.map(q we [q.id, q])).get(qid): on duplicate ids the
later entry wins, hence the lookup over the reversed list. -/
def questionMapGet (questions : List Question) (qid : String) : Option Question :=
  questions.reverse.find? (fun q => q.id = qid)

/-- FormValidationService.validateAnswerByType. -/
def validateAnswerByType (q : Question) (ans : JsonValue) : Except String Unit :=
  if q.qtype = "text" then
    match ans with
    | .str s => if 1000 < s.length then .error (msgTooLong q.title) else .ok ()
    | _ => .error (msgMustBeString q.title)
  else if q.qtype = "email" then
    match ans with
    | .str s => if emailRegexTest s = false then .error (msgValidEmail q.title) else .ok ()
    | _ => .error (msgMustBeString q.title)
  else if q.qtype = "multiple-choice" then
    match ans with
    | .str s => if s ∈ q.options then .ok () else .error (msgOneOfOptions q.title)
    | _ => .error (msgMustBeString q.title)
  else .error ("Unknown question type: " ++ q.qtype)

/-- The Object.entries(answers) loop of validateAnswers: unknown-question
check, required-but-empty check, skip of empty optional answers, per-type
check. -/
def checkEntries (questions : List Question) : List (String × JsonValue) → Except String Unit
  | [] => .ok ()
  | (qid, ans) :: rest =>
    match questionMapGet questions qid with
    | none => .error (msgUnknownAnswer qid)
    | some q =>
      if q.required && isEmptyAnswer ans then .error (msgMustBeAnswered q.title)
      else if isEmptyAnswer ans then checkEntries questions rest
      else
        match validateAnswerByType q ans with
        | .error e => .error e
        | .ok _ => checkEntries questions rest

/-- JS: question.id in answers. -/
def hasKey (answers : List (String × JsonValue)) (k : String) : Bool :=
  answers.any (fun p => p.1 = k)

/-- The second loop of validateAnswers: every required question must have a
key in the answers object. -/
def checkRequired (answers : List (String × JsonValue)) : List Question → Except String Unit
  | [] => .ok ()
  | q :: rest =>
    if q.required && !hasKey answers q.id then .error (msgMissing q.title)
    else checkRequired answers rest

/-- FormValidationService.validateAnswers (the answers argument is already
an object by typing, so the typeof guard is not represented). -/
def validateAnswers (answers : List (String × JsonValue)) (questions : List Question) :
    Except String Unit :=
  match checkEntries questions answers with
  | .error e => .error e
  | .ok _ => checkRequired answers questions

/-- FormValidationService.validateEmailIfPresent: if (email && !EMAIL_REGEX.test(email)). -/
def validateEmailIfPresent : Option String → Except String Unit
  | none => .ok ()
  | some e => if e ≠ "" ∧ emailRegexTest e = false then .error "Invalid email format" else .ok ()

/-- The submission payload fields the services read. -/
structure SubmissionDto where
  formId : Option String
  questions : List Question
  answers : List (String × JsonValue)
  userEmail : Option String
  userAgent : Option String
  ipAddress : Option String
  sessionId : Option String
  convertFromDraft : Bool

/-- FormValidationService.validateFormSubmission: questions, then answers,
then the optional top-level user email. -/
def validateFormSubmission (s : SubmissionDto) : Except String Unit :=
  match validateQuestions s.questions with
  | .error e => .error e
  | .ok _ =>
    match validateAnswers s.answers s.questions with
    | .error e => .error e
    | .ok _ => validateEmailIfPresent s.userEmail

/-- A persisted FormSubmission document, with the fields the service reads
and writes. rid is the document identity used by updateOne. -/
structure FormRecord where
  rid : Nat
  questions : List JsonValue
  answers : JsonValue
  formId : Option String
  userEmail : Option String
  sessionId : Option String
  submittedAt : Nat
  attempts : Nat
  lastAttempt : Nat
  draftSessionId : Option String
  metadata : List (String × JsonValue)
  deriving Repr

/-- The trailing five-minute window boundary (Nat subtraction: all
timestamps of interest dominate the window). -/
def fiveMinutesAgo (now : Nat) : Nat := now - 300000

/-- The find query of checkSubmissionProtection: same sessionId, attempt
timestamp inside the window. -/
def recentFor (store : List FormRecord) (sid : String) (now : Nat) : List FormRecord :=
  store.filter (fun r => r.sessionId = some sid && fiveMinutesAgo now ≤ r.lastAttempt)

/-- First element of the sort by lastSubmissionAttempt descending: a record
of maximal attempt timestamp. -/
def mostRecent : List FormRecord → Option FormRecord
  | [] => none
  | r :: rs => some (rs.foldl (fun a b => if a.lastAttempt < b.lastAttempt then b else a) r)

/-- updateOne by id: increment submissionAttempts, refresh
lastSubmissionAttempt. -/
def bumpAttempt (store : List FormRecord) (rid : Nat) (now : Nat) : List FormRecord :=
  store.map (fun r =>
    if r.rid = rid then { r with attempts := r.attempts + 1, lastAttempt := now } else r)

/-- metadata.ipAddress of a stored record, when it is a string. -/
def metaIpOf (r : FormRecord) : Option String :=
  match r.metadata.find? (fun p => p.1 = "ipAddress") with
  | some p => match p.2 with | .str s => some s | _ => none
  | none => none

def ipLimitMsg : String := "Too many submissions from this IP address"
def waitMsg : String := "Please wait before submitting again"
def tooManyMsg : String := "Too many submission attempts. Please wait 5 minutes before trying again"

/-- countDocuments of the IP query of checkSubmissionProtection. -/
def ipCount (store : List FormRecord) (ip : String) (now : Nat) : Nat :=
  (store.filter (fun r => metaIpOf r = some ip && fiveMinutesAgo now ≤ r.lastAttempt)).length

/-- The trailing IP gate of checkSubmissionProtection; skipped when the
ipAddress argument is absent or falsy (empty string). -/
def ipGate (store : List FormRecord) (ip : Option String) (now : Nat) : Option String :=
  match ip with
  | none => none
  | some a =>
    if a = "" then none
    else if 10 ≤ ipCount store a now then some ipLimitMsg else none

/-- FormsService.checkSubmissionProtection as a store transformer: returns
the store after any bookkeeping write together with the rejection message,
if any. The counter update is issued before the IP gate runs, so an IP
rejection can leave the update behind. -/
def checkSubmissionProtection (store : List FormRecord) (sid : String) (ip : Option String)
    (now : Nat) : List FormRecord × Option String :=
  match mostRecent (recentFor store sid now) with
  | none => (store, ipGate store ip now)
  | some last =>
    if now - last.lastAttempt < 30000 then (store, some waitMsg)
    else if 3 ≤ (recentFor store sid now).length then (store, some tooManyMsg)
    else (bumpAttempt store last.rid now, ipGate (bumpAttempt store last.rid now) ip now)

/-- JSON view of a question as the sanitizer receives it. -/
def questionToJson (q : Question) : JsonValue :=
  .obj [("id", .str q.id), ("type", .str q.qtype), ("title", .str q.title),
        ("required", .bool q.required), ("options", .arr (q.options.map JsonValue.str))]

/-- Merged metadata of a new submission: the caller-supplied map spread
first, then the service-owned fields, which overwrite in place. -/
def objInsert (l : List (String × JsonValue)) (k : String) (v : JsonValue) :
    List (String × JsonValue) :=
  if l.any (fun p => p.1 = k) then l.map (fun p => if p.1 = k then (k, v) else p)
  else l ++ [(k, v)]

def mergeMeta (metadata : List (String × JsonValue)) (converted : Bool) :
    List (String × JsonValue) :=
  objInsert (objInsert (objInsert metadata "version" (.str "1.0.0"))
    "source" (.str "easyform-frontend")) "convertedFromDraft" (.bool converted)

/-- A stored DraftSubmission document. -/
structure DraftRecord where
  rid : Nat
  sessionId : String
  formId : Option String
  answers : List (String × JsonValue)
  currentStep : Nat
  lastModified : Nat
  expiresAt : Nat
  userAgent : Option String
  ipAddress : Option String
  answerCount : Nat
  lastQuestionAnswered : Option String
  deriving Repr

/-- deleteOne on the drafts collection: remove the first record with the
session id. -/
def deleteOneDraft (sid : String) : List DraftRecord → List DraftRecord
  | [] => []
  | d :: rest => if d.sessionId = sid then rest else d :: deleteOneDraft sid rest

/-- Outcome of submitForm: rejected is a thrown BadRequestException or
HttpException, accepted carries the new document id. -/
inductive SubmitOutcome where
  | rejected (msg : String)
  | accepted (submissionId : Nat)
  deriving Repr, DecidableEq

/-- A fresh document id. -/
def freshRid (store : List FormRecord) : Nat :=
  (store.map FormRecord.rid).foldr max 0 + 1

/-- metadata?.ipAddress as passed by submitForm to the guard. -/
def metadataIp (metadata : List (String × JsonValue)) : Option String :=
  match metadata.find? (fun p => p.1 = "ipAddress") with
  | some p => match p.2 with | .str s => some s | _ => none
  | none => none

/-- The new FormSubmission document built by submitForm: sanitized
questions and answers, submittedAt and the protection fields initialised,
merged metadata. -/
def newSubmissionDoc (store1 : List FormRecord) (dto : SubmissionDto)
    (metadata : List (String × JsonValue)) (now : Nat) : FormRecord :=
  { rid := freshRid store1,
    questions := dto.questions.map (fun q => sanitizeInput (questionToJson q)),
    answers := sanitizeInput (.obj dto.answers),
    formId := dto.formId,
    userEmail := dto.userEmail,
    sessionId := dto.sessionId,
    submittedAt := now,
    attempts := 1,
    lastAttempt := now,
    draftSessionId := if dto.convertFromDraft then dto.sessionId else none,
    metadata := mergeMeta metadata dto.convertFromDraft }

/-- The guard step of submitForm: run only when a truthy sessionId was
supplied. -/
def guardStep (store : List FormRecord) (dto : SubmissionDto)
    (metadata : List (String × JsonValue)) (now : Nat) : List FormRecord × Option String :=
  match dto.sessionId with
  | some sid => if sid = "" then (store, none)
                else checkSubmissionProtection store sid (metadataIp metadata) now
  | none => (store, none)

/-- FormsService.submitForm: validate, guard when a truthy sessionId was
supplied, sanitize, insert the new document, then best-effort draft cleanup
when converting. Returns the outcome, the submissions store and the drafts
store. -/
def submitForm (store : List FormRecord) (drafts : List DraftRecord) (dto : SubmissionDto)
    (metadata : List (String × JsonValue)) (now : Nat) :
    SubmitOutcome × List FormRecord × List DraftRecord :=
  match validateFormSubmission dto with
  | .error e => (.rejected e, store, drafts)
  | .ok _ =>
    match guardStep store dto metadata now with
    | (store1, some msg) => (.rejected msg, store1, drafts)
    | (store1, none) =>
      let newRec := newSubmissionDoc store1 dto metadata now
      let store2 := store1 ++ [newRec]
      let drafts2 :=
        match dto.convertFromDraft, dto.sessionId with
        | true, some sid => if sid = "" then drafts else deleteOneDraft sid drafts
        | _, _ => drafts
      (.accepted newRec.rid, store2, drafts2)

/-- Error taxonomy of the draft endpoints: BadRequestException versus
NotFoundException. -/
inductive DraftError where
  | badRequest (msg : String)
  | notFound (msg : String)
  deriving Repr, DecidableEq

def invalidSessionMsg : String := "Invalid session ID format"

/-- DraftsService.getLastAnsweredQuestion: the last key, in insertion order,
whose value is neither undefined nor the empty string nor null. -/
def getLastAnsweredQuestion (answers : List (String × JsonValue)) : Option String :=
  ((answers.filter (fun p => !isEmptyAnswer p.2)).map Prod.fst).getLast?

/-- The fields of SaveDraftDto the service reads. -/
structure SaveDraftDto where
  sessionId : String
  formId : Option String
  answers : List (String × JsonValue)
  currentStep : Nat

def sevenDaysMs : Nat := 7 * 24 * 60 * 60 * 1000

/-- The document written by the saveDraft upsert, at a given document id. -/
def draftDocOf (dto : SaveDraftDto) (ua ip : Option String) (now rid : Nat) : DraftRecord :=
  { rid := rid,
    sessionId := dto.sessionId,
    formId := dto.formId,
    answers := dto.answers,
    currentStep := dto.currentStep,
    lastModified := now,
    expiresAt := now + sevenDaysMs,
    userAgent := ua,
    ipAddress := ip,
    answerCount := dto.answers.length,
    lastQuestionAnswered := getLastAnsweredQuestion dto.answers }

/-- findOneAndUpdate with upsert: overwrite the first record carrying the
session id, keeping its document id, or append a new document. -/
def upsertDraft (drafts : List DraftRecord) (dto : SaveDraftDto) (ua ip : Option String)
    (now : Nat) : List DraftRecord :=
  match drafts with
  | [] => [draftDocOf dto ua ip now ((drafts.map DraftRecord.rid).foldr max 0 + 1)]
  | d :: rest =>
    if d.sessionId = dto.sessionId then draftDocOf dto ua ip now d.rid :: rest
    else d :: upsertDraft rest dto ua ip now

/-- DraftsService.saveDraft: session-id format gate, then the upsert. The
falsy check on the id is subsumed by the length check, as an empty string
has length 0. -/
def saveDraft (drafts : List DraftRecord) (dto : SaveDraftDto) (ua ip : Option String)
    (now : Nat) : Except DraftError Unit × List DraftRecord :=
  if dto.sessionId.length < 10 then (.error (.badRequest invalidSessionMsg), drafts)
  else (.ok (), upsertDraft drafts dto ua ip now)

/-- DraftsService.getDraft: same format gate; findOne restricted to records
whose expiresAt is strictly in the future. -/
def getDraft (drafts : List DraftRecord) (sessionId : String) (now : Nat) :
    Except DraftError (Option DraftRecord) :=
  if sessionId.length < 10 then .error (.badRequest invalidSessionMsg)
  else .ok (drafts.find? (fun d => d.sessionId = sessionId && now < d.expiresAt))

/-- DraftsService.deleteDraft: format gate, deleteOne, not-found when
nothing matched. -/
def deleteDraft (drafts : List DraftRecord) (sessionId : String) :
    Except DraftError Unit × List DraftRecord :=
  if sessionId.length < 10 then (.error (.badRequest invalidSessionMsg), drafts)
  else if drafts.any (fun d => d.sessionId = sessionId) then
    (.ok (), deleteOneDraft sessionId drafts)
  else (.error (.notFound "Draft not found"), drafts)

/-- DraftsService.cleanupExpiredDrafts: deleteMany of every draft whose
expiresAt is strictly in the past; returns the deleted count. -/
def cleanupExpiredDrafts (drafts : List DraftRecord) (now : Nat) : Nat × List DraftRecord :=
  let kept := drafts.filter (fun d => !(d.expiresAt < now))
  (drafts.length - kept.length, kept)

/-- Whether a character list contains an angle bracket. -/
def hasAngle (l : List Char) : Bool := l.any (fun c => c = '<' || c = '>')

mutual
/-- No string anywhere in the value contains an angle bracket. -/
def angleFree : JsonValue → Bool
  | .str s => !hasAngle s.data
  | .obj fields => angleFreeFields fields
  | .arr items => angleFreeItems items
  | .num _ => true
  | .bool _ => true
  | .null => true
  | .undefined => true

def angleFreeFields : List (String × JsonValue) → Bool
  | [] => true
  | (_, v) :: rest => angleFree v && angleFreeFields rest

def angleFreeItems : List JsonValue → Bool
  | [] => true
  | v :: rest => angleFree v && angleFreeItems rest
end

/-- Whether a value is an array. -/
def jsonIsArr : JsonValue → Bool
  | .arr _ => true
  | _ => false

/-- JS answers[k]: the value stored under a key, if any. -/
def answerFor (answers : List (String × JsonValue)) (k : String) : Option JsonValue :=
  (answers.find? (fun p => p.1 = k)).map Prod.snd

/-- The violation the required-completeness rules look for: the question is
required and its answer is absent, undefined, null or the empty string. -/
def requiredViolated (answers : List (String × JsonValue)) (q : Question) : Bool :=
  q.required && (match answerFor answers q.id with
    | none => true
    | some v => isEmptyAnswer v)

def exceptOk {ε α : Type} : Except ε α → Bool
  | .ok _ => true
  | .error _ => false

/-- Every answer key references a question of the list and every present,
non-empty answer passes its per-type check. -/
def answersWellFormed (questions : List Question) (answers : List (String × JsonValue)) : Bool :=
  answers.all (fun p =>
    match questionMapGet questions p.1 with
    | none => false
    | some q => isEmptyAnswer p.2 || exceptOk (validateAnswerByType q p.2))

/-- A submission carrying only questions, answers and an optional user
email: the fields validateFormSubmission reads. -/
def mkSubmission (questions : List Question) (answers : List (String × JsonValue))
    (userEmail : Option String) : SubmissionDto :=
  ⟨none, questions, answers, userEmail, none, none, none, false⟩

/-- Concrete inputs used to instantiate the theorems below. -/
def c2Rec (i la : Nat) : FormRecord := ⟨i, [], .obj [], none, none, some "sessionAAA", la, 1, la, none, []⟩

def c2Store : List FormRecord := [c2Rec 0 965000, c2Rec 1 900000, c2Rec 2 850000]

def c3Rec (i : Nat) (sid : Option String) (la : Nat) : FormRecord :=
  ⟨i, [], .obj [], none, none, sid, la, 1, la, none, [("ipAddress", .str "1.2.3.4")]⟩

def c3Store : List FormRecord :=
  c3Rec 0 (some "sessionAAA") 965000 :: (List.range 9).map (fun i => c3Rec (i + 1) none 999000)

def c3Dto : SubmissionDto :=
  ⟨none, [⟨"name", "text", "Name", true, []⟩], [("name", .str "Ann")],
   none, none, none, some "sessionAAA", false⟩

def c3Meta : List (String × JsonValue) := [("ipAddress", .str "1.2.3.4")]

def c3DtoFresh : SubmissionDto :=
  ⟨none, [⟨"name", "text", "Name", true, []⟩], [("name", .str "Ann")],
   none, none, none, some "sessionZZZZ", false⟩

def c1Questions : List Question := [⟨"name", "text", "Name", true, []⟩]

def c1Answers : List (String × JsonValue) := [("name", JsonValue.str "Ann")]

def c6Dto : SubmissionDto :=
  mkSubmission [⟨"rating", "multiple-choice", "Rating", true, ["1", "2", "3"]⟩]
    [("rating", .str "3")] none

def c6Meta : List (String × JsonValue) :=
  [("campaign", .str "summer-2024"), ("source", .str "mobile-app"), ("version", .str "2.1.0")]

def c7Draft : DraftRecord :=
  ⟨1, "sessionBBB1", none, [("q1", .str "a")], 2, 500, 1000, none, none, 1, some "q1"⟩

def c8Dto : SaveDraftDto := ⟨"abcdefghij", some "f1", [("q1", .str "a"), ("q2", .str "")], 1⟩

def c8DtoShort : SaveDraftDto := ⟨"abcdefghi", none, [], 0⟩

def c9Dto : SubmissionDto :=
  mkSubmission [⟨"experience", "multiple-choice", "Experience", true, ["Beginner", "Intermediate"]⟩]
    [("experience", .str "Intermediate")] none

def c10Questions : List Question := [⟨"name", "text", "Name", false, []⟩]

theorem exceptOk_eq_ok {e : Except String Unit} (h : exceptOk e = true) : e = .ok () := by
  cases e with
  | ok u => cases u; rfl
  | error s => simp [exceptOk] at h

theorem head?_dropWhile_false {α : Type} (p : α → Bool) :
    ∀ (l : List α) (a : α), (l.dropWhile p).head? = some a → p a = false := by
  intro l
  induction l with
  | nil => intro a h; simp [List.dropWhile] at h
  | cons x xs ih =>
    intro a h
    rw [List.dropWhile_cons] at h
    cases hx : p x with
    | true => rw [hx] at h; simp only [if_true] at h; exact ih a h
    | false =>
      rw [hx] at h
      simp only [Bool.false_eq_true, if_false, List.head?_cons, Option.some.injEq] at h
      rw [← h]; exact hx

theorem dropWhile_idem {α : Type} (p : α → Bool) (l : List α) :
    (l.dropWhile p).dropWhile p = l.dropWhile p := by
  cases h : l.dropWhile p with
  | nil => simp
  | cons a rest =>
    have ha : p a = false := head?_dropWhile_false p l a (by rw [h]; rfl)
    rw [List.dropWhile_cons, ha]
    simp

theorem getLast?_of_dropWhile_getLast? {α : Type} (p : α → Bool) (l : List α) (a : α)
    (h : (l.dropWhile p).getLast? = some a) : l.getLast? = some a := by
  obtain ⟨t, ht⟩ := List.dropWhile_suffix (l := l) p
  have hne : l.dropWhile p ≠ [] := by
    intro hnil; rw [hnil] at h; simp at h
  rw [← ht, List.getLast?_append_of_ne_nil t hne]
  exact h

theorem trimChars_head_false (l : List Char) (a : Char)
    (h : (trimChars l).head? = some a) : isJsWhitespace a = false := by
  unfold trimChars at h
  rw [List.head?_reverse] at h
  have h2 := getLast?_of_dropWhile_getLast? isJsWhitespace _ a h
  rw [List.getLast?_reverse] at h2
  exact head?_dropWhile_false isJsWhitespace _ a h2

theorem trimChars_dropWhile_self (l : List Char) :
    (trimChars l).dropWhile isJsWhitespace = trimChars l := by
  cases h : trimChars l with
  | nil => simp
  | cons a rest =>
    have ha : isJsWhitespace a = false := trimChars_head_false l a (by rw [h]; rfl)
    rw [List.dropWhile_cons, ha]
    simp

theorem trimChars_idem (l : List Char) : trimChars (trimChars l) = trimChars l := by
  have h2 : (trimChars l).reverse =
      ((l.dropWhile isJsWhitespace).reverse).dropWhile isJsWhitespace := by
    unfold trimChars; rw [List.reverse_reverse]
  calc trimChars (trimChars l)
      = (((trimChars l).dropWhile isJsWhitespace).reverse.dropWhile isJsWhitespace).reverse := rfl
    _ = ((trimChars l).reverse.dropWhile isJsWhitespace).reverse := by
        rw [trimChars_dropWhile_self]
    _ = trimChars l := by
        rw [h2, dropWhile_idem, ← h2, List.reverse_reverse]

theorem mem_trimChars {l : List Char} {c : Char} (h : c ∈ trimChars l) : c ∈ l := by
  unfold trimChars at h
  rw [List.mem_reverse] at h
  have h2 := List.Sublist.mem h (List.dropWhile_suffix isJsWhitespace).sublist
  rw [List.mem_reverse] at h2
  exact List.Sublist.mem h2 (List.dropWhile_suffix isJsWhitespace).sublist

theorem stripAngles_eq_self {l : List Char} (h : hasAngle l = false) : stripAngles l = l := by
  apply List.filter_eq_self.mpr
  intro a ha
  simpa using List.any_eq_false.mp h a ha

theorem hasAngle_stripAngles (l : List Char) : hasAngle (stripAngles l) = false := by
  apply List.any_eq_false.mpr
  intro x hx
  unfold stripAngles at hx
  rw [List.mem_filter] at hx
  simpa using hx.2

theorem hasAngle_trimChars {l : List Char} (h : hasAngle l = false) :
    hasAngle (trimChars l) = false := by
  apply List.any_eq_false.mpr
  intro x hx
  exact List.any_eq_false.mp h x (mem_trimChars hx)

theorem sanitizeString_of_hasAngle_false {s : String} (h : hasAngle s.data = false) :
    sanitizeString s = ⟨trimChars s.data⟩ := by
  unfold sanitizeString
  rw [stripAngles_eq_self (hasAngle_trimChars h)]

theorem sanitizeString_idem {s : String} (h : hasAngle s.data = false) :
    sanitizeString (sanitizeString s) = sanitizeString s := by
  rw [sanitizeString_of_hasAngle_false h]
  show (⟨stripAngles (trimChars (trimChars s.data))⟩ : String) = _
  rw [trimChars_idem, stripAngles_eq_self (hasAngle_trimChars h)]

mutual
theorem sanitizeInput_idem : ∀ (v : JsonValue), angleFree v = true →
    sanitizeInput (sanitizeInput v) = sanitizeInput v
  | .str s, h => by
      simp only [sanitizeInput]
      rw [sanitizeString_idem (by simpa [angleFree] using h)]
  | .obj fields, h => by
      simp only [sanitizeInput]
      rw [sanitizeFields_idem fields (by simpa [angleFree] using h)]
  | .arr items, h => by
      simp only [sanitizeInput]
      rw [sanitizeEntries_idem 0 items (by simpa [angleFree] using h)]
  | .num n, _ => rfl
  | .bool b, _ => rfl
  | .null, _ => rfl
  | .undefined, _ => rfl

theorem sanitizeFields_idem : ∀ (l : List (String × JsonValue)), angleFreeFields l = true →
    sanitizeFields (sanitizeFields l) = sanitizeFields l
  | [], _ => rfl
  | (k, v) :: rest, h => by
      have h1 : angleFree v = true ∧ angleFreeFields rest = true := by
        simpa [angleFreeFields, Bool.and_eq_true] using h
      simp only [sanitizeFields]
      rw [sanitizeInput_idem v h1.1, sanitizeFields_idem rest h1.2]

theorem sanitizeEntries_idem : ∀ (i : Nat) (l : List JsonValue), angleFreeItems l = true →
    sanitizeFields (sanitizeEntriesFrom i l) = sanitizeEntriesFrom i l
  | _, [], _ => rfl
  | i, v :: rest, h => by
      have h1 : angleFree v = true ∧ angleFreeItems rest = true := by
        simpa [angleFreeItems, Bool.and_eq_true] using h
      simp only [sanitizeEntriesFrom, sanitizeFields]
      rw [sanitizeInput_idem v h1.1, sanitizeEntries_idem (i + 1) rest h1.2]
end

theorem sanitizeEntriesFrom_keys : ∀ (l : List JsonValue) (i : Nat),
    (sanitizeEntriesFrom i l).map Prod.fst = (List.range' i l.length).map toString := by
  intro l
  induction l with
  | nil => intro i; rfl
  | cons v rest ih =>
    intro i
    simp only [sanitizeEntriesFrom, List.map_cons, List.length_cons, List.range'_succ]
    rw [ih (i + 1)]

/-- Claim C4, counterexample: sanitization is not idempotent. Sanitizing the
string between angle brackets around a space-padded letter yields a string
with leading and trailing spaces, which a second sanitization trims away. -/
theorem sanitize_idem_counterexample :
    sanitizeInput (JsonValue.str "< a >") = JsonValue.str " a "
    ∧ sanitizeInput (JsonValue.str " a ") = JsonValue.str "a"
    ∧ ((" a " : String) == "a") = false := by
  exact ⟨rfl, rfl, by decide⟩

/-- Claim C4, amended: sanitization is idempotent on every value none of
whose strings contains an angle-bracket character; in general deleting the
angle brackets can expose new leading or trailing whitespace, which only
the second pass trims. -/
theorem sanitize_idem_on_angleFree (v : JsonValue) (h : angleFree v = true) :
    sanitizeInput (sanitizeInput v) = sanitizeInput v :=
  sanitizeInput_idem v h

theorem sanitize_idem_on_angleFree_witness :
    sanitizeInput (sanitizeInput (JsonValue.obj [("a", JsonValue.str " x ")])) =
      sanitizeInput (JsonValue.obj [("a", JsonValue.str " x ")]) :=
  sanitize_idem_on_angleFree (JsonValue.obj [("a", JsonValue.str " x ")]) (by rfl)

/-- Claim C5: on strings sanitizeInput trims and then deletes every
angle-bracket character (the script-tag example evaluates exactly as the
spec demands), the result contains no angle bracket and is a subsequence of
the trimmed input, and numbers, booleans, null and undefined pass through
unchanged. -/
theorem sanitizeInput_string_spec :
    (∀ s : String, sanitizeInput (.str s) = .str ⟨stripAngles (trimChars s.data)⟩)
    ∧ sanitizeString "<script>x</script>" = "scriptx/script"
    ∧ sanitizeInput (.str "<script>x</script>") = .str "scriptx/script"
    ∧ (∀ n : Int, sanitizeInput (.num n) = .num n)
    ∧ (∀ b : Bool, sanitizeInput (.bool b) = .bool b)
    ∧ sanitizeInput .null = .null
    ∧ sanitizeInput .undefined = .undefined
    ∧ (∀ s : String, hasAngle (sanitizeString s).data = false)
    ∧ (∀ s : String, (sanitizeString s).data.Sublist (trimChars s.data)) :=
  ⟨fun _ => rfl, by decide, by rfl, fun _ => rfl, fun _ => rfl, rfl, rfl,
   fun s => hasAngle_stripAngles (trimChars s.data),
   fun s => List.filter_sublist (trimChars s.data)⟩

/-- Claim C9: sanitizeInput never returns an array: an array becomes a
plain object whose keys are the decimal indices of the elements; in
particular a persisted multiple-choice question has its options list
reshaped into an index-keyed object, as the concrete submitForm run
shows. -/
theorem sanitize_array_becomes_object :
    (∀ items : List JsonValue, sanitizeInput (.arr items) = .obj (sanitizeEntriesFrom 0 items))
    ∧ (∀ items : List JsonValue, jsonIsArr (sanitizeInput (.arr items)) = false)
    ∧ (∀ items : List JsonValue,
        (sanitizeEntriesFrom 0 items).map Prod.fst = (List.range items.length).map toString)
    ∧ (submitForm [] [] c9Dto [] 0).2.1.map FormRecord.questions =
        [[JsonValue.obj [("id", .str "experience"), ("type", .str "multiple-choice"),
          ("title", .str "Experience"), ("required", .bool true),
          ("options", .obj [("0", .str "Beginner"), ("1", .str "Intermediate")])]]]
    ∧ (submitForm [] [] c9Dto [] 0).1 = .accepted 1 := by
  refine ⟨fun _ => rfl, fun _ => rfl, fun items => ?_, by rfl, by rfl⟩
  rw [List.range_eq_range']
  exact sanitizeEntriesFrom_keys items 0

/-- Claim C2: when the five-minute history of the session holds at least
three attempts, the guard rejects: with the too-many-attempts message when
the most recent attempt is at least 30 seconds old, and with the wait
message, which takes priority, when it is younger than 30 seconds. -/
theorem guard_too_many_attempts (store : List FormRecord) (sid : String) (ip : Option String)
    (now : Nat) (r : FormRecord)
    (hr : mostRecent (recentFor store sid now) = some r)
    (h3 : 3 ≤ (recentFor store sid now).length) :
    (30000 ≤ now - r.lastAttempt →
      (checkSubmissionProtection store sid ip now).2 = some tooManyMsg) ∧
    (now - r.lastAttempt < 30000 →
      (checkSubmissionProtection store sid ip now).2 = some waitMsg) := by
  constructor
  · intro hge
    have hlt : ¬ (now - r.lastAttempt < 30000) := Nat.not_lt.mpr hge
    simp only [checkSubmissionProtection, hr, if_neg hlt, if_pos h3]
  · intro hlt
    simp only [checkSubmissionProtection, hr, if_pos hlt]

theorem guard_too_many_attempts_witness :
    (checkSubmissionProtection c2Store "sessionAAA" none 1000000).2 = some tooManyMsg :=
  (guard_too_many_attempts c2Store "sessionAAA" none 1000000 (c2Rec 0 965000)
    (by rfl) (by decide)).1 (by decide)

theorem ipGate_some {store : List FormRecord} {ip : Option String} {now : Nat} {m : String}
    (h : ipGate store ip now = some m) : m = ipLimitMsg := by
  unfold ipGate at h
  split at h
  · simp at h
  · split at h
    · simp at h
    · split at h
      · rw [Option.some.injEq] at h
        exact h.symm
      · simp at h

theorem checkSubmissionProtection_nonip_reject {store : List FormRecord} {sid : String}
    {ip : Option String} {now : Nat} {store1 : List FormRecord} {msg : String}
    (h : checkSubmissionProtection store sid ip now = (store1, some msg))
    (hne : msg ≠ ipLimitMsg) : store1 = store := by
  unfold checkSubmissionProtection at h
  split at h
  · rw [Prod.mk.injEq] at h
    exact h.1.symm
  · split at h
    · rw [Prod.mk.injEq] at h
      exact h.1.symm
    · split at h
      · rw [Prod.mk.injEq] at h
        exact h.1.symm
      · rw [Prod.mk.injEq] at h
        exact absurd (ipGate_some h.2) hne

theorem guardStep_reject_store {store : List FormRecord} {dto : SubmissionDto}
    {metadata : List (String × JsonValue)} {now : Nat} {store1 : List FormRecord} {msg : String}
    (h : guardStep store dto metadata now = (store1, some msg))
    (hne : msg ≠ ipLimitMsg) : store1 = store := by
  unfold guardStep at h
  split at h
  · split at h
    · simp at h
    · exact checkSubmissionProtection_nonip_reject h hne
  · simp at h

/-- Claim C3, amended: a validation rejection returns the store and drafts
exactly as they were; every non-IP rejection leaves both untouched; every
rejection leaves the drafts untouched; and when the session has no
window-recent attempts, so that no bookkeeping update precedes the IP
gate, any rejection (the IP-based one included) also leaves the store
untouched. Only the IP-based rejection that follows a session counter
update is excluded from the store guarantee. -/
theorem reject_no_write (store : List FormRecord) (drafts : List DraftRecord)
    (dto : SubmissionDto) (metadata : List (String × JsonValue)) (now : Nat) :
    (∀ e, validateFormSubmission dto = .error e →
      submitForm store drafts dto metadata now = (.rejected e, store, drafts)) ∧
    (∀ msg, (submitForm store drafts dto metadata now).1 = .rejected msg → msg ≠ ipLimitMsg →
      (submitForm store drafts dto metadata now).2 = (store, drafts)) ∧
    (∀ msg, (submitForm store drafts dto metadata now).1 = .rejected msg →
      (submitForm store drafts dto metadata now).2.2 = drafts) ∧
    (∀ sid, dto.sessionId = some sid → sid ≠ "" →
      mostRecent (recentFor store sid now) = none →
      ∀ msg, (submitForm store drafts dto metadata now).1 = .rejected msg →
        (submitForm store drafts dto metadata now).2 = (store, drafts)) := by
  refine ⟨fun e he => by simp only [submitForm, he], ?_, ?_, ?_⟩
  · intro msg hrej hne
    cases hv : validateFormSubmission dto with
    | error e => simp only [submitForm, hv]
    | ok u =>
      cases u
      cases hg : guardStep store dto metadata now with
      | mk store1 o =>
        cases o with
        | none =>
          simp only [submitForm, hv, hg] at hrej
          exact SubmitOutcome.noConfusion hrej
        | some m =>
          simp only [submitForm, hv, hg] at hrej ⊢
          have hm : m = msg := by
            simpa using hrej
          rw [guardStep_reject_store hg (hm ▸ hne)]
  · intro msg hrej
    cases hv : validateFormSubmission dto with
    | error e => simp only [submitForm, hv]
    | ok u =>
      cases u
      cases hg : guardStep store dto metadata now with
      | mk store1 o =>
        cases o with
        | none =>
          simp only [submitForm, hv, hg] at hrej
          exact SubmitOutcome.noConfusion hrej
        | some m => simp only [submitForm, hv, hg]
  · intro sid hs hse hm msg hrej
    cases hv : validateFormSubmission dto with
    | error e => simp only [submitForm, hv]
    | ok u =>
      cases u
      have hg : guardStep store dto metadata now =
          checkSubmissionProtection store sid (metadataIp metadata) now := by
        simp only [guardStep, hs, if_neg hse]
      have hst : (checkSubmissionProtection store sid (metadataIp metadata) now).1 = store := by
        simp only [checkSubmissionProtection, hm]
      cases hcp : checkSubmissionProtection store sid (metadataIp metadata) now with
      | mk store1 o =>
        have hst1 : store1 = store := by
          rw [hcp] at hst
          exact hst
        cases o with
        | some m => simp only [submitForm, hv, hg, hcp, hst1]
        | none =>
          simp only [submitForm, hv, hg, hcp] at hrej
          exact SubmitOutcome.noConfusion hrej

/-- Claim C3, counterexample: with one recent session attempt 35 seconds
old and ten window-recent submissions from the same IP, the call is
rejected by the IP rule, yet the submission counter of the most recent
session record has already been incremented: the store is not as it was
before the call. -/
theorem reject_after_write_counterexample :
    (submitForm c3Store [] c3Dto c3Meta 1000000).1 = .rejected ipLimitMsg
    ∧ (submitForm c3Store [] c3Dto c3Meta 1000000).2.1.map FormRecord.attempts =
        [2, 1, 1, 1, 1, 1, 1, 1, 1, 1]
    ∧ c3Store.map FormRecord.attempts = [1, 1, 1, 1, 1, 1, 1, 1, 1, 1] :=
  ⟨by rfl, by rfl, by rfl⟩

theorem reject_no_write_witness :
    submitForm [] [] (mkSubmission [] [] none) [] 0 =
      (.rejected "At least one question is required", [], [])
    ∧ (submitForm c3Store [] c3DtoFresh c3Meta 1000000).2 = (c3Store, []) :=
  ⟨(reject_no_write [] [] (mkSubmission [] [] none) [] 0).1
      "At least one question is required" (by rfl),
   (reject_no_write c3Store [] c3DtoFresh c3Meta 1000000).2.2.2
      "sessionZZZZ" rfl (by decide) (by rfl) ipLimitMsg (by rfl)⟩

theorem find?_map_replace (k : String) (v : JsonValue) :
    ∀ l : List (String × JsonValue), l.any (fun p => p.1 = k) = true →
      (l.map (fun p => if p.1 = k then (k, v) else p)).find? (fun p => p.1 = k) = some (k, v) := by
  intro l
  induction l with
  | nil => intro h; simp at h
  | cons p rest ih =>
    intro h
    by_cases hp : p.1 = k
    · simp only [List.map_cons, if_pos hp, List.find?_cons]
      simp
    · simp only [List.map_cons, if_neg hp, List.find?_cons]
      have hpd : (decide (p.1 = k)) = false := by simp [hp]
      rw [hpd]
      apply ih
      simp only [List.any_cons, Bool.or_eq_true] at h
      rcases h with h | h
      · exact absurd (of_decide_eq_true h) hp
      · exact h

theorem find?_append_single (k : String) (v : JsonValue) :
    ∀ l : List (String × JsonValue), l.any (fun p => p.1 = k) = false →
      (l ++ [(k, v)]).find? (fun p => p.1 = k) = some (k, v) := by
  intro l
  induction l with
  | nil => simp
  | cons p rest ih =>
    intro h
    simp only [List.any_cons, Bool.or_eq_false_iff] at h
    simp only [List.cons_append, List.find?_cons]
    rw [h.1]
    exact ih h.2

theorem find?_objInsert_self (l : List (String × JsonValue)) (k : String) (v : JsonValue) :
    (objInsert l k v).find? (fun p => p.1 = k) = some (k, v) := by
  unfold objInsert
  by_cases h : l.any (fun p => p.1 = k) = true
  · rw [if_pos h]
    exact find?_map_replace k v l h
  · rw [if_neg h]
    exact find?_append_single k v l (Bool.not_eq_true _ ▸ h)

theorem find?_map_replace_other (k : String) (v : JsonValue) (k2 : String) (hne : k2 ≠ k) :
    ∀ l : List (String × JsonValue),
      (l.map (fun p => if p.1 = k then (k, v) else p)).find? (fun p => p.1 = k2) =
        l.find? (fun p => p.1 = k2) := by
  intro l
  induction l with
  | nil => rfl
  | cons p rest ih =>
    by_cases hp : p.1 = k
    · have h2 : (decide ((k : String) = k2)) = false := by
        simp only [decide_eq_false_iff_not]
        exact fun h => hne h.symm
      have h3 : (decide (p.1 = k2)) = false := by
        simp only [decide_eq_false_iff_not]
        intro hc
        have hk : k2 = k := by rw [← hc]; exact hp
        exact hne hk
      simp only [List.map_cons, if_pos hp, List.find?_cons, h2, h3]
      exact ih
    · simp only [List.map_cons, if_neg hp, List.find?_cons]
      cases hd : (decide (p.1 = k2)) with
      | true => rfl
      | false => exact ih

theorem find?_append_single_other (k : String) (v : JsonValue) (k2 : String) (hne : k2 ≠ k) :
    ∀ l : List (String × JsonValue),
      (l ++ [(k, v)]).find? (fun p => p.1 = k2) = l.find? (fun p => p.1 = k2) := by
  intro l
  induction l with
  | nil =>
    simp only [List.nil_append, List.find?_cons, List.find?_nil]
    have h2 : (decide ((k : String) = k2)) = false := by
      simp only [decide_eq_false_iff_not]
      exact fun h => hne h.symm
    rw [h2]
  | cons p rest ih =>
    simp only [List.cons_append, List.find?_cons]
    cases hd : (decide (p.1 = k2)) with
    | true => rfl
    | false => exact ih

theorem find?_objInsert_other (l : List (String × JsonValue)) (k : String) (v : JsonValue)
    (k2 : String) (hne : k2 ≠ k) :
    (objInsert l k v).find? (fun p => p.1 = k2) = l.find? (fun p => p.1 = k2) := by
  unfold objInsert
  by_cases h : l.any (fun p => p.1 = k) = true
  · rw [if_pos h]
    exact find?_map_replace_other k v k2 hne l
  · rw [if_neg h]
    exact find?_append_single_other k v k2 hne l

/-- Claim C6: for every accepted submission the persisted metadata is the
caller-supplied map merged with the service-owned fields version, source
and convertedFromDraft applied last: the three service keys always hold
the service values, whatever the caller supplied, and every other key
keeps its caller value. -/
theorem metadata_merge (store : List FormRecord) (drafts : List DraftRecord)
    (dto : SubmissionDto) (metadata : List (String × JsonValue)) (now : Nat) (i : Nat)
    (h : (submitForm store drafts dto metadata now).1 = .accepted i) :
    ∃ r : FormRecord,
      ((submitForm store drafts dto metadata now).2.1).getLast? = some r
      ∧ r.metadata = mergeMeta metadata dto.convertFromDraft
      ∧ r.metadata.find? (fun p => p.1 = "version") = some ("version", .str "1.0.0")
      ∧ r.metadata.find? (fun p => p.1 = "source") = some ("source", .str "easyform-frontend")
      ∧ r.metadata.find? (fun p => p.1 = "convertedFromDraft") =
          some ("convertedFromDraft", .bool dto.convertFromDraft)
      ∧ (∀ k, k ≠ "version" → k ≠ "source" → k ≠ "convertedFromDraft" →
          r.metadata.find? (fun p => p.1 = k) = metadata.find? (fun p => p.1 = k)) := by
  cases hv : validateFormSubmission dto with
  | error e =>
    simp only [submitForm, hv] at h
    exact SubmitOutcome.noConfusion h
  | ok u =>
    cases u
    cases hg : guardStep store dto metadata now with
    | mk store1 o =>
      cases o with
      | some m =>
        simp only [submitForm, hv, hg] at h
        exact SubmitOutcome.noConfusion h
      | none =>
        have hver : (mergeMeta metadata dto.convertFromDraft).find? (fun p => p.1 = "version") =
            some ("version", .str "1.0.0") := by
          unfold mergeMeta
          rw [find?_objInsert_other _ _ _ _ (by decide), find?_objInsert_other _ _ _ _ (by decide),
            find?_objInsert_self]
        have hsrc : (mergeMeta metadata dto.convertFromDraft).find? (fun p => p.1 = "source") =
            some ("source", .str "easyform-frontend") := by
          unfold mergeMeta
          rw [find?_objInsert_other _ _ _ _ (by decide), find?_objInsert_self]
        have hcvt : (mergeMeta metadata dto.convertFromDraft).find?
            (fun p => p.1 = "convertedFromDraft") =
            some ("convertedFromDraft", .bool dto.convertFromDraft) := by
          unfold mergeMeta
          rw [find?_objInsert_self]
        have hoth : ∀ k, k ≠ "version" → k ≠ "source" → k ≠ "convertedFromDraft" →
            (mergeMeta metadata dto.convertFromDraft).find? (fun p => p.1 = k) =
              metadata.find? (fun p => p.1 = k) := by
          intro k h1 h2 h3
          unfold mergeMeta
          rw [find?_objInsert_other _ _ _ _ h3, find?_objInsert_other _ _ _ _ h2,
            find?_objInsert_other _ _ _ _ h1]
        refine ⟨newSubmissionDoc store1 dto metadata now, ?_, rfl, hver, hsrc, hcvt, hoth⟩
        simp only [submitForm, hv, hg]
        exact List.getLast?_concat store1

theorem metadata_merge_witness :
    ∃ r : FormRecord, ((submitForm [] [] c6Dto c6Meta 5).2.1).getLast? = some r
      ∧ r.metadata.find? (fun p => p.1 = "version") = some ("version", .str "1.0.0")
      ∧ r.metadata.find? (fun p => p.1 = "source") = some ("source", .str "easyform-frontend")
      ∧ r.metadata.find? (fun p => p.1 = "campaign") = c6Meta.find? (fun p => p.1 = "campaign") := by
  obtain ⟨r, h1, _, h3, h4, _, h6⟩ := metadata_merge [] [] c6Dto c6Meta 5 1 (by rfl)
  exact ⟨r, h1, h3, h4, h6 "campaign" (by decide) (by decide) (by decide)⟩

theorem find?_draft_unique (sid : String) (now : Nat) (d : DraftRecord) :
    ∀ drafts : List DraftRecord, (drafts.map DraftRecord.sessionId).Nodup →
      d ∈ drafts → d.sessionId = sid →
      drafts.find? (fun x => x.sessionId = sid && now < x.expiresAt) =
        (if now < d.expiresAt then some d else none) := by
  intro drafts
  induction drafts with
  | nil => intro _ hmem; exact absurd hmem (List.not_mem_nil d)
  | cons a rest ih =>
    intro hnd hmem hsid
    rw [List.map_cons, List.nodup_cons] at hnd
    rcases List.mem_cons.mp hmem with heq | hrest
    · subst heq
      by_cases hlt : now < d.expiresAt
      · rw [if_pos hlt]
        rw [List.find?_cons]
        have hpred : (decide (d.sessionId = sid) && decide (now < d.expiresAt)) = true := by
          simp [hsid, hlt]
        rw [hpred]
      · rw [if_neg hlt]
        rw [List.find?_cons]
        have hpred : (decide (d.sessionId = sid) && decide (now < d.expiresAt)) = false := by
          simp [hlt]
        rw [hpred]
        apply List.find?_eq_none.mpr
        intro x hx
        simp only [Bool.and_eq_true, decide_eq_true_eq, not_and]
        intro hxs
        have hxm : x.sessionId ∈ List.map DraftRecord.sessionId rest :=
          List.mem_map_of_mem DraftRecord.sessionId hx
        rw [hxs, ← hsid] at hxm
        exact absurd hxm hnd.1
    · have hane : a.sessionId ≠ sid := by
        intro hc
        have hdm : d.sessionId ∈ List.map DraftRecord.sessionId rest :=
          List.mem_map_of_mem DraftRecord.sessionId hrest
        rw [hsid, ← hc] at hdm
        exact hnd.1 hdm
      rw [List.find?_cons]
      have hpred : (decide (a.sessionId = sid) && decide (now < a.expiresAt)) = false := by
        simp [hane]
      rw [hpred]
      exact ih hnd.2 hrest hsid

/-- Claim C7: under the session-id format gate and with unique session ids
in the drafts store, getDraft returns the stored draft of a session exactly
when its expiresAt lies strictly in the future of the call time; when the
expiry has passed the call behaves as not-found (an empty result) even
though the expired draft is still in the store. -/
theorem getDraft_expiry (drafts : List DraftRecord) (sid : String) (now : Nat) (d : DraftRecord)
    (hfmt : 10 ≤ sid.length) (hnd : (drafts.map DraftRecord.sessionId).Nodup)
    (hmem : d ∈ drafts) (hsid : d.sessionId = sid) :
    (now < d.expiresAt → getDraft drafts sid now = .ok (some d)) ∧
    (d.expiresAt ≤ now → getDraft drafts sid now = .ok none) := by
  have hnl : ¬ (sid.length < 10) := Nat.not_lt.mpr hfmt
  have hfind := find?_draft_unique sid now d drafts hnd hmem hsid
  constructor
  · intro hlt
    unfold getDraft
    rw [if_neg hnl, hfind, if_pos hlt]
  · intro hle
    unfold getDraft
    rw [if_neg hnl, hfind, if_neg (Nat.not_lt.mpr hle)]

theorem getDraft_expiry_witness :
    getDraft [c7Draft] "sessionBBB1" 500 = .ok (some c7Draft) ∧
    getDraft [c7Draft] "sessionBBB1" 2000 = .ok none :=
  ⟨(getDraft_expiry [c7Draft] "sessionBBB1" 500 c7Draft (by decide) (by decide)
      (List.mem_singleton.mpr rfl) rfl).1 (by decide),
   (getDraft_expiry [c7Draft] "sessionBBB1" 2000 c7Draft (by decide) (by decide)
      (List.mem_singleton.mpr rfl) rfl).2 (by decide)⟩

theorem upsertDraft_mem (dto : SaveDraftDto) (ua ip : Option String) (now : Nat) :
    ∀ drafts : List DraftRecord,
      ∃ rid, draftDocOf dto ua ip now rid ∈ upsertDraft drafts dto ua ip now := by
  intro drafts
  induction drafts with
  | nil => exact ⟨1, List.mem_singleton.mpr rfl⟩
  | cons a rest ih =>
    by_cases ha : a.sessionId = dto.sessionId
    · refine ⟨a.rid, ?_⟩
      simp only [upsertDraft, if_pos ha]
      exact List.mem_cons_self _ _
    · obtain ⟨rid, hm⟩ := ih
      refine ⟨rid, ?_⟩
      simp only [upsertDraft, if_neg ha]
      exact List.mem_cons_of_mem a hm

theorem upsertDraft_length_replace (dto : SaveDraftDto) (ua ip : Option String) (now : Nat) :
    ∀ drafts : List DraftRecord, drafts.any (fun x => x.sessionId = dto.sessionId) = true →
      (upsertDraft drafts dto ua ip now).length = drafts.length := by
  intro drafts
  induction drafts with
  | nil => intro h; simp at h
  | cons a rest ih =>
    intro h
    by_cases ha : a.sessionId = dto.sessionId
    · simp only [upsertDraft, if_pos ha, List.length_cons]
    · simp only [upsertDraft, if_neg ha, List.length_cons]
      simp only [List.any_cons, Bool.or_eq_true] at h
      rcases h with h | h
      · exact absurd (of_decide_eq_true h) ha
      · rw [ih h]

theorem upsertDraft_length_create (dto : SaveDraftDto) (ua ip : Option String) (now : Nat) :
    ∀ drafts : List DraftRecord, drafts.any (fun x => x.sessionId = dto.sessionId) = false →
      (upsertDraft drafts dto ua ip now).length = drafts.length + 1 := by
  intro drafts
  induction drafts with
  | nil => intro _; rfl
  | cons a rest ih =>
    intro h
    simp only [List.any_cons, Bool.or_eq_false_iff] at h
    have ha : ¬ (a.sessionId = dto.sessionId) := by
      intro hc
      rw [decide_eq_true hc] at h
      exact Bool.true_eq_false ▸ h.1
    simp only [upsertDraft, if_neg ha, List.length_cons]
    rw [ih h.2]

/-- Claim C8: saveDraft rejects a session id shorter than 10 characters (a
length-9 id in particular) with a bad-request error, which is distinct from
every not-found error, and writes nothing; a session id of length 10 or
more passes the format gate and the draft is upserted: the store then holds
a record carrying the supplied fields, an expiry one week ahead and the
derived metadata, and the store keeps its size when the session id was
already present and grows by one document when it was not. -/
theorem saveDraft_format_gate (drafts : List DraftRecord) (dto : SaveDraftDto)
    (ua ip : Option String) (now : Nat) :
    (dto.sessionId.length < 10 →
      saveDraft drafts dto ua ip now = (.error (.badRequest invalidSessionMsg), drafts)
      ∧ ∀ m, (DraftError.badRequest invalidSessionMsg) ≠ DraftError.notFound m) ∧
    (10 ≤ dto.sessionId.length →
      (saveDraft drafts dto ua ip now).1 = .ok ()
      ∧ (∃ d ∈ (saveDraft drafts dto ua ip now).2,
          d.sessionId = dto.sessionId ∧ d.formId = dto.formId ∧ d.answers = dto.answers ∧
          d.currentStep = dto.currentStep ∧ d.lastModified = now ∧
          d.expiresAt = now + sevenDaysMs ∧ d.userAgent = ua ∧ d.ipAddress = ip ∧
          d.answerCount = dto.answers.length ∧
          d.lastQuestionAnswered = getLastAnsweredQuestion dto.answers)
      ∧ (drafts.any (fun x => x.sessionId = dto.sessionId) = true →
          (saveDraft drafts dto ua ip now).2.length = drafts.length)
      ∧ (drafts.any (fun x => x.sessionId = dto.sessionId) = false →
          (saveDraft drafts dto ua ip now).2.length = drafts.length + 1)) := by
  constructor
  · intro hlt
    refine ⟨?_, fun m => DraftError.noConfusion⟩
    unfold saveDraft
    rw [if_pos hlt]
  · intro hge
    have hnl : ¬ (dto.sessionId.length < 10) := Nat.not_lt.mpr hge
    refine ⟨?_, ?_, ?_, ?_⟩
    · unfold saveDraft; rw [if_neg hnl]
    · unfold saveDraft; rw [if_neg hnl]
      obtain ⟨rid, hm⟩ := upsertDraft_mem dto ua ip now drafts
      exact ⟨draftDocOf dto ua ip now rid, hm, rfl, rfl, rfl, rfl, rfl, rfl, rfl, rfl, rfl, rfl⟩
    · intro hany
      unfold saveDraft; rw [if_neg hnl]
      exact upsertDraft_length_replace dto ua ip now drafts hany
    · intro hany
      unfold saveDraft; rw [if_neg hnl]
      exact upsertDraft_length_create dto ua ip now drafts hany

theorem saveDraft_format_gate_witness :
    saveDraft [] c8DtoShort none none 0 = (.error (.badRequest invalidSessionMsg), [])
    ∧ (saveDraft [] c8Dto none none 0).1 = .ok ()
    ∧ (saveDraft [] c8Dto none none 0).2.length = 1 :=
  ⟨((saveDraft_format_gate [] c8DtoShort none none 0).1 (by decide)).1,
   ((saveDraft_format_gate [] c8Dto none none 0).2 (by decide)).1,
   ((saveDraft_format_gate [] c8Dto none none 0).2 (by decide)).2.2.2 (by rfl)⟩

/-- Claim C10: when the question-list and answer checks pass,
validateFormSubmission additionally rejects with the invalid-email-format
message exactly when the optional top-level userEmail is present, non-empty
and fails the email pattern; an absent or empty userEmail skips the check,
and a matching one is accepted. The concrete evaluations exhibit the
pattern: one at-sign, non-whitespace parts, a dot inside the domain. -/
theorem email_gate (questions : List Question) (answers : List (String × JsonValue))
    (ue : Option String)
    (hq : validateQuestions questions = .ok ())
    (ha : validateAnswers answers questions = .ok ()) :
    (∀ e, ue = some e → e ≠ "" → emailRegexTest e = false →
      validateFormSubmission (mkSubmission questions answers ue) = .error "Invalid email format") ∧
    (ue = none → validateFormSubmission (mkSubmission questions answers ue) = .ok ()) ∧
    (ue = some "" → validateFormSubmission (mkSubmission questions answers ue) = .ok ()) ∧
    (∀ e, ue = some e → emailRegexTest e = true →
      validateFormSubmission (mkSubmission questions answers ue) = .ok ()) ∧
    emailRegexTest "a@b.c" = true ∧ emailRegexTest "a@b" = false ∧
    emailRegexTest "a b@c.d" = false ∧ emailRegexTest "a@b@c.d" = false ∧
    emailRegexTest "@b.c" = false ∧ emailRegexTest "a@b." = false := by
  have hbase : validateFormSubmission (mkSubmission questions answers ue) =
      validateEmailIfPresent ue := by
    simp only [validateFormSubmission, mkSubmission, hq, ha]
  refine ⟨?_, ?_, ?_, ?_, by decide, by decide, by decide, by decide, by decide, by decide⟩
  · intro e he hne hreg
    rw [hbase, he]
    show (if e ≠ "" ∧ emailRegexTest e = false then Except.error "Invalid email format"
      else Except.ok ()) = _
    rw [if_pos ⟨hne, hreg⟩]
  · intro h
    rw [hbase, h]
    rfl
  · intro h
    rw [hbase, h]
    show (if ("" : String) ≠ "" ∧ emailRegexTest "" = false then
      Except.error "Invalid email format" else Except.ok ()) = _
    rw [if_neg]
    intro hc
    exact hc.1 rfl
  · intro e he hreg
    rw [hbase, he]
    show (if e ≠ "" ∧ emailRegexTest e = false then Except.error "Invalid email format"
      else Except.ok ()) = _
    rw [if_neg]
    intro hc
    rw [hreg] at hc
    exact Bool.true_eq_false ▸ hc.2

theorem email_gate_witness :
    validateFormSubmission (mkSubmission c10Questions [] (some "not-an-email")) =
      .error "Invalid email format" :=
  (email_gate c10Questions [] (some "not-an-email") (by rfl) (by rfl)).1
    "not-an-email" rfl (by decide) (by decide)

theorem questionMapGet_mem {questions : List Question} {qid : String} {q : Question}
    (h : questionMapGet questions qid = some q) : q ∈ questions ∧ q.id = qid := by
  unfold questionMapGet at h
  refine ⟨List.mem_reverse.mp (List.mem_of_find?_eq_some h), ?_⟩
  have hp := List.find?_some h
  simpa using hp

theorem answerFor_of_mem : ∀ (answers : List (String × JsonValue)) (k : String) (v : JsonValue),
    (answers.map Prod.fst).Nodup → (k, v) ∈ answers → answerFor answers k = some v := by
  intro answers
  induction answers with
  | nil => intro k v _ hmem; exact absurd hmem (List.not_mem_nil _)
  | cons p rest ih =>
    intro k v hnd hmem
    rw [List.map_cons, List.nodup_cons] at hnd
    rcases List.mem_cons.mp hmem with heq | hrest
    · subst heq
      unfold answerFor
      rw [List.find?_cons]
      have hd : (decide ((k, v).1 = k)) = true := by simp
      rw [hd]
      rfl
    · have hk : k ∈ rest.map Prod.fst := by
        have := List.mem_map_of_mem Prod.fst hrest
        simpa using this
      have hne : p.1 ≠ k := fun hc => hnd.1 (hc ▸ hk)
      unfold answerFor
      rw [List.find?_cons]
      have hd : (decide (p.1 = k)) = false := decide_eq_false hne
      rw [hd]
      exact ih k v hnd.2 hrest

theorem hasKey_of_answerFor {answers : List (String × JsonValue)} {k : String} {v : JsonValue}
    (h : answerFor answers k = some v) : hasKey answers k = true := by
  unfold answerFor at h
  cases hf : answers.find? (fun p => p.1 = k) with
  | none => rw [hf] at h; exact Option.noConfusion h
  | some y =>
    apply List.any_eq_true.mpr
    have hm := List.mem_of_find?_eq_some hf
    have hp := List.find?_some hf
    exact ⟨y, hm, hp⟩

theorem answerFor_isSome_of_hasKey {answers : List (String × JsonValue)} {k : String}
    (h : hasKey answers k = true) : ∃ v, answerFor answers k = some v := by
  obtain ⟨x, hx, hpred⟩ := List.any_eq_true.mp h
  cases hf : answers.find? (fun p => p.1 = k) with
  | none => exact absurd hpred (List.find?_eq_none.mp hf x hx)
  | some y =>
    refine ⟨y.2, ?_⟩
    unfold answerFor
    rw [hf]
    rfl

theorem hasKey_false_of_answerFor_none {answers : List (String × JsonValue)} {k : String}
    (h : answerFor answers k = none) : hasKey answers k = false := by
  cases hk : hasKey answers k with
  | false => rfl
  | true =>
    obtain ⟨v, hv⟩ := answerFor_isSome_of_hasKey hk
    rw [hv] at h
    exact Option.noConfusion h

theorem validateQuestionsGo_nodup : ∀ (qs : List Question) (seen : List String),
    validateQuestionsGo qs seen = .ok () →
    (qs.map Question.id).Nodup ∧ ∀ q ∈ qs, q.id ∉ seen := by
  intro qs
  induction qs with
  | nil =>
    intro seen _
    exact ⟨List.nodup_nil, fun q hq => absurd hq (List.not_mem_nil q)⟩
  | cons q rest ih =>
    intro seen h
    unfold validateQuestionsGo at h
    by_cases h1 : q.id = ""
    · rw [if_pos h1] at h; exact Except.noConfusion h
    rw [if_neg h1] at h
    by_cases h2 : q.id ∈ seen
    · rw [if_pos h2] at h; exact Except.noConfusion h
    rw [if_neg h2] at h
    by_cases h3 : q.qtype ∉ questionTypeValues
    · rw [if_pos h3] at h; exact Except.noConfusion h
    rw [if_neg h3] at h
    by_cases h4 : q.title = ""
    · rw [if_pos h4] at h; exact Except.noConfusion h
    rw [if_neg h4] at h
    by_cases h5 : q.qtype = "multiple-choice" ∧ q.options = []
    · rw [if_pos h5] at h; exact Except.noConfusion h
    rw [if_neg h5] at h
    obtain ⟨hnd, hseen⟩ := ih (q.id :: seen) h
    constructor
    · rw [List.map_cons, List.nodup_cons]
      refine ⟨?_, hnd⟩
      intro hc
      obtain ⟨r, hr, hride⟩ := List.mem_map.mp hc
      have hrs := hseen r hr
      apply hrs
      rw [hride]
      exact List.mem_cons_self _ _
    · intro q2 hq2
      rcases List.mem_cons.mp hq2 with heq | hq2r
      · subst heq; exact h2
      · have := hseen q2 hq2r
        exact fun hc => this (List.mem_cons_of_mem _ hc)

theorem validateQuestions_nodup {questions : List Question}
    (h : validateQuestions questions = .ok ()) : (questions.map Question.id).Nodup := by
  unfold validateQuestions at h
  by_cases h1 : questions.length = 0
  · rw [if_pos h1] at h; exact Except.noConfusion h
  rw [if_neg h1] at h
  by_cases h2 : 50 < questions.length
  · rw [if_pos h2] at h; exact Except.noConfusion h
  rw [if_neg h2] at h
  exact (validateQuestionsGo_nodup questions [] h).1

theorem checkEntries_ok_of (questions : List Question) :
    ∀ answers : List (String × JsonValue),
      (∀ k v, (k, v) ∈ answers → ∃ q, questionMapGet questions k = some q ∧
        (q.required = true → isEmptyAnswer v = false) ∧
        (isEmptyAnswer v = false → validateAnswerByType q v = .ok ())) →
      checkEntries questions answers = .ok () := by
  intro answers
  induction answers with
  | nil => intro _; rfl
  | cons p rest ih =>
    intro h
    obtain ⟨k, v⟩ := p
    obtain ⟨q, hq, hreq, htype⟩ := h k v (List.mem_cons_self _ _)
    have hrest : checkEntries questions rest = .ok () :=
      ih (fun k2 v2 hm => h k2 v2 (List.mem_cons_of_mem _ hm))
    simp only [checkEntries, hq]
    by_cases hemp : isEmptyAnswer v = true
    · have hreqf : q.required = false := by
        cases hrb : q.required with
        | false => rfl
        | true =>
          have := hreq hrb
          rw [hemp] at this
          exact Bool.noConfusion this
      have hcf : ¬ ((q.required && isEmptyAnswer v) = true) := by
        rw [hreqf]
        simp
      rw [if_neg hcf, if_pos hemp]
      exact hrest
    · have hempf : isEmptyAnswer v = false := Bool.not_eq_true _ ▸ hemp
      have hcf : ¬ ((q.required && isEmptyAnswer v) = true) := by
        rw [hempf]
        simp
      rw [if_neg hcf, if_neg hemp, htype hempf]
      exact hrest

theorem checkEntries_cases (questions : List Question) :
    ∀ answers : List (String × JsonValue), answersWellFormed questions answers = true →
      checkEntries questions answers = .ok () ∨
      ∃ k v q, (k, v) ∈ answers ∧ questionMapGet questions k = some q ∧
        q.required = true ∧ isEmptyAnswer v = true ∧
        checkEntries questions answers = .error (msgMustBeAnswered q.title) := by
  intro answers
  induction answers with
  | nil => intro _; exact Or.inl rfl
  | cons p rest ih =>
    intro h
    obtain ⟨k, v⟩ := p
    unfold answersWellFormed at h
    rw [List.all_cons, Bool.and_eq_true] at h
    have hrest := ih h.2
    have h1 := h.1
    cases hm : questionMapGet questions k with
    | none =>
      simp only [hm] at h1
      exact Bool.noConfusion h1
    | some q =>
      simp only [hm] at h1
      simp only [checkEntries, hm]
      by_cases hemp : isEmptyAnswer v = true
      · by_cases hreqb : q.required = true
        · refine Or.inr ⟨k, v, q, List.mem_cons_self _ _, hm, hreqb, hemp, ?_⟩
          rw [if_pos (by rw [hreqb, hemp]; rfl)]
        · have hreqf : q.required = false := Bool.not_eq_true _ ▸ hreqb
          have hcf : ¬ ((q.required && isEmptyAnswer v) = true) := by
            rw [hreqf]; simp
          rw [if_neg hcf, if_pos hemp]
          rcases hrest with hok | ⟨k2, v2, q2, hm2, hq2, hr2, he2, herr⟩
          · exact Or.inl hok
          · exact Or.inr ⟨k2, v2, q2, List.mem_cons_of_mem _ hm2, hq2, hr2, he2, herr⟩
      · have hempf : isEmptyAnswer v = false := Bool.not_eq_true _ ▸ hemp
        have hcf : ¬ ((q.required && isEmptyAnswer v) = true) := by
          rw [hempf]; simp
        rw [if_neg hcf, if_neg hemp]
        have htok : validateAnswerByType q v = .ok () := by
          apply exceptOk_eq_ok
          rw [hempf] at h1
          simpa using h1
        rw [htok]
        rcases hrest with hok | ⟨k2, v2, q2, hm2, hq2, hr2, he2, herr⟩
        · exact Or.inl hok
        · exact Or.inr ⟨k2, v2, q2, List.mem_cons_of_mem _ hm2, hq2, hr2, he2, herr⟩

theorem checkEntries_ok_no_violation (questions : List Question) :
    ∀ answers : List (String × JsonValue), checkEntries questions answers = .ok () →
      ∀ k v q, (k, v) ∈ answers → questionMapGet questions k = some q →
        ¬(q.required = true ∧ isEmptyAnswer v = true) := by
  intro answers
  induction answers with
  | nil => intro _ k v q hmem; exact absurd hmem (List.not_mem_nil _)
  | cons p rest ih =>
    intro h k v q hmem hq
    obtain ⟨k0, v0⟩ := p
    cases hm : questionMapGet questions k0 with
    | none =>
      simp only [checkEntries, hm] at h
      exact Except.noConfusion h
    | some q0 =>
      simp only [checkEntries, hm] at h
      by_cases hrb : (q0.required && isEmptyAnswer v0) = true
      · rw [if_pos hrb] at h; exact Except.noConfusion h
      · rw [if_neg hrb] at h
        have hrest : checkEntries questions rest = .ok () := by
          by_cases hemp : isEmptyAnswer v0 = true
          · rw [if_pos hemp] at h; exact h
          · rw [if_neg hemp] at h
            cases hvt : validateAnswerByType q0 v0 with
            | error e => rw [hvt] at h; exact Except.noConfusion h
            | ok u => rw [hvt] at h; exact h
        rcases List.mem_cons.mp hmem with heq | hmr
        · injection heq with hk hv
          subst hk
          subst hv
          rw [hq] at hm
          injection hm with hqq
          subst hqq
          intro hc
          rw [hc.1, hc.2] at hrb
          exact hrb rfl
        · exact ih hrest k v q hmr hq

theorem checkRequired_ok (answers : List (String × JsonValue)) :
    ∀ questions : List Question,
      (∀ q ∈ questions, q.required = true → hasKey answers q.id = true) →
      checkRequired answers questions = .ok () := by
  intro questions
  induction questions with
  | nil => intro _; rfl
  | cons q rest ih =>
    intro h
    simp only [checkRequired]
    by_cases hc : (q.required && !hasKey answers q.id) = true
    · exfalso
      rw [Bool.and_eq_true] at hc
      have hk := h q (List.mem_cons_self _ _) hc.1
      rw [hk] at hc
      simp at hc
    · rw [if_neg hc]
      exact ih (fun q2 hm => h q2 (List.mem_cons_of_mem _ hm))

theorem checkRequired_missing (answers : List (String × JsonValue)) :
    ∀ questions : List Question,
      (∃ q ∈ questions, q.required = true ∧ hasKey answers q.id = false) →
      ∃ q ∈ questions, q.required = true ∧ hasKey answers q.id = false ∧
        checkRequired answers questions = .error (msgMissing q.title) := by
  intro questions
  induction questions with
  | nil =>
    intro h
    obtain ⟨q, hq, _⟩ := h
    exact absurd hq (List.not_mem_nil q)
  | cons q rest ih =>
    intro h
    by_cases hc : (q.required && !hasKey answers q.id) = true
    · have hc2 := hc
      rw [Bool.and_eq_true, Bool.not_eq_true'] at hc2
      refine ⟨q, List.mem_cons_self _ _, hc2.1, hc2.2, ?_⟩
      simp only [checkRequired]
      rw [if_pos hc]
    · obtain ⟨q0, hq0, hr0, hk0⟩ := h
      rcases List.mem_cons.mp hq0 with heq | hmr
      · subst heq
        exfalso
        apply hc
        rw [Bool.and_eq_true, Bool.not_eq_true']
        exact ⟨hr0, hk0⟩
      · obtain ⟨q1, hm1, hr1, hk1, herr⟩ := ih ⟨q0, hmr, hr0, hk0⟩
        refine ⟨q1, List.mem_cons_of_mem _ hm1, hr1, hk1, ?_⟩
        simp only [checkRequired]
        rw [if_neg hc]
        exact herr

theorem mem_of_answerFor {answers : List (String × JsonValue)} {k : String} {v : JsonValue}
    (h : answerFor answers k = some v) : (k, v) ∈ answers := by
  unfold answerFor at h
  cases hf : answers.find? (fun p => p.1 = k) with
  | none => rw [hf] at h; exact Option.noConfusion h
  | some y =>
    rw [hf] at h
    have hy2 : y.2 = v := by simpa using h
    have hy1 : y.1 = k := by simpa using List.find?_some hf
    have hym := List.mem_of_find?_eq_some hf
    have hykv : y = (k, v) := by
      rw [← hy1, ← hy2]
    rw [← hykv]
    exact hym

/-- Claim C1 (amended): over question lists passing the question checks,
answer maps with unique keys in which every key references a question and
every present non-empty answer passes its per-type check: if some required
question has its key absent, or present with an undefined, null or
empty-string value, validateFormSubmission rejects citing the title of such
a question; conversely when no required question is violated it accepts.
The userEmail field is absent, so only the question and answer checks act.
The amendment adds the well-formedness proviso: without it an unknown
answer key or a type-check failure is reported first, with a message that
does not cite the violated required question. -/
theorem required_completeness (questions : List Question) (answers : List (String × JsonValue))
    (hq : validateQuestions questions = .ok ())
    (hnd : (answers.map Prod.fst).Nodup)
    (hwf : answersWellFormed questions answers = true) :
    ((questions.any (fun q => requiredViolated answers q)) = true →
      ∃ q ∈ questions, requiredViolated answers q = true ∧
        (validateFormSubmission (mkSubmission questions answers none) =
            .error (msgMustBeAnswered q.title) ∨
         validateFormSubmission (mkSubmission questions answers none) =
            .error (msgMissing q.title))) ∧
    ((questions.all (fun q => !requiredViolated answers q)) = true →
      validateFormSubmission (mkSubmission questions answers none) = .ok ()) := by
  constructor
  · intro hany
    obtain ⟨q0, hq0mem, hq0v⟩ := List.any_eq_true.mp hany
    rcases checkEntries_cases questions answers hwf with hok |
      ⟨k, v, qe, hmem, hmg, hreq, hemp, herr⟩
    · unfold requiredViolated at hq0v
      rw [Bool.and_eq_true] at hq0v
      have hreq0 : q0.required = true := hq0v.1
      have hmatch := hq0v.2
      have hnone : answerFor answers q0.id = none := by
        cases haf : answerFor answers q0.id with
        | none => rfl
        | some v0 =>
          exfalso
          simp only [haf] at hmatch
          have hmem0 : (q0.id, v0) ∈ answers := mem_of_answerFor haf
          have hp := List.all_eq_true.mp hwf (q0.id, v0) hmem0
          simp only at hp
          cases hm1 : questionMapGet questions q0.id with
          | none =>
            simp only [hm1] at hp
            exact Bool.noConfusion hp
          | some q1 =>
            have hq1m := questionMapGet_mem hm1
            have hq1eq : q1 = q0 :=
              List.inj_on_of_nodup_map (validateQuestions_nodup hq) hq1m.1 hq0mem hq1m.2
            exact checkEntries_ok_no_violation questions answers hok q0.id v0 q1 hmem0 hm1
              ⟨hq1eq ▸ hreq0, hmatch⟩
      have hkey : hasKey answers q0.id = false := hasKey_false_of_answerFor_none hnone
      obtain ⟨q2, hm2, hr2, hk2, herr2⟩ :=
        checkRequired_missing answers questions ⟨q0, hq0mem, hreq0, hkey⟩
      refine ⟨q2, hm2, ?_, Or.inr ?_⟩
      · unfold requiredViolated
        rw [hr2]
        have hn2 : answerFor answers q2.id = none := by
          cases haf2 : answerFor answers q2.id with
          | none => rfl
          | some vv =>
            rw [hasKey_of_answerFor haf2] at hk2
            exact Bool.noConfusion hk2
        rw [hn2]
        rfl
      · have hva : validateAnswers answers questions = .error (msgMissing q2.title) := by
          unfold validateAnswers
          rw [hok]
          exact herr2
        simp only [validateFormSubmission, mkSubmission, hq, hva]
    · have hafe : answerFor answers k = some v := answerFor_of_mem answers k v hnd hmem
      have hqe := questionMapGet_mem hmg
      refine ⟨qe, hqe.1, ?_, Or.inl ?_⟩
      · unfold requiredViolated
        rw [hreq, hqe.2, hafe]
        simp only [hemp]
        rfl
      · have hva : validateAnswers answers questions = .error (msgMustBeAnswered qe.title) := by
          unfold validateAnswers
          rw [herr]
        simp only [validateFormSubmission, mkSubmission, hq, hva]
  · intro hall
    have hva : validateAnswers answers questions = .ok () := by
      unfold validateAnswers
      have hce : checkEntries questions answers = .ok () := by
        apply checkEntries_ok_of
        intro k v hm
        have hp := List.all_eq_true.mp hwf (k, v) hm
        simp only at hp
        cases hmg : questionMapGet questions k with
        | none =>
          simp only [hmg] at hp
          exact Bool.noConfusion hp
        | some q =>
          simp only [hmg] at hp
          refine ⟨q, rfl, ?_, ?_⟩
          · intro hreq
            have hqm := questionMapGet_mem hmg
            have hnv := List.all_eq_true.mp hall q hqm.1
            have hviol : requiredViolated answers q = false := by simpa using hnv
            have haf : answerFor answers q.id = some v := by
              rw [hqm.2]
              exact answerFor_of_mem answers k v hnd hm
            unfold requiredViolated at hviol
            rw [hreq, haf] at hviol
            simpa using hviol
          · intro hempf
            rw [hempf] at hp
            simp only [Bool.false_or] at hp
            exact exceptOk_eq_ok hp
      rw [hce]
      apply checkRequired_ok
      intro q2 hm2 hreq2
      have hnv := List.all_eq_true.mp hall q2 hm2
      have hviol : requiredViolated answers q2 = false := by simpa using hnv
      unfold requiredViolated at hviol
      rw [hreq2, Bool.true_and] at hviol
      cases haf : answerFor answers q2.id with
      | none =>
        rw [haf] at hviol
        exact Bool.noConfusion hviol
      | some v2 => exact hasKey_of_answerFor haf
    simp only [validateFormSubmission, mkSubmission, hq, hva]
    rfl

/-- Claim C1, counterexample to the converse as stated: the single question
is required, its answer is present and non-empty (the number 42), and there
are no optional answers, yet validation rejects, because the per-type check
also applies to required answers. -/
theorem required_completeness_counterexample :
    validateQuestions c1Questions = .ok ()
    ∧ answerFor [("name", JsonValue.num 42)] "name" = some (JsonValue.num 42)
    ∧ isEmptyAnswer (JsonValue.num 42) = false
    ∧ validateFormSubmission (mkSubmission c1Questions [("name", JsonValue.num 42)] none) =
        .error (msgMustBeString "Name") :=
  ⟨rfl, rfl, rfl, rfl⟩

theorem required_completeness_witness :
    validateFormSubmission (mkSubmission c1Questions c1Answers none) = .ok () :=
  (required_completeness c1Questions c1Answers (by rfl) (by simp [c1Answers]) (by rfl)).2 (by rfl)
